import Mathlib

/-!
Verification development for the backpack grid system
(`src/services/backpackLogic.ts` / `BackpackSystem`, with the item catalog
from `src/constants.ts` and the types from `src/types.ts`).

The TypeScript class is embedded shallowly:

* `ItemDefinition` / `PlacedItem` mirror the interfaces in `types.ts`.
* The item catalog (`Record<string, ItemDefinition>`) becomes a lookup
  function `String → Option ItemDefinition` (`undefined` ↦ `none`).
* 2D arrays that are only read through in-range indexing (the occupancy
  grids) are embedded as functions `Int → Int → Option String` resp.
  `Int → Int → Bool`; the imperative cell writes become function updates
  performed by a fold over the loop index ranges, in source loop order.
* JavaScript's `Array.prototype.sort` with the comparator
  `(a, b) => areaB - areaA` is, per the ECMAScript specification, a stable
  sort; with a consistent comparator its result is uniquely determined, so
  it is embedded as a stable insertion sort with the same ordering.
* `organize` dereferences `defs[item.defId]` without a guard, so a missing
  catalog entry makes it throw a `TypeError`; the embedding returns
  `Option`, with `none` for the thrown exception.
-/

namespace Backpack

/-- `ItemDefinition` from `src/types.ts`: `id`, `name`, `color`, the 0/1
`shape` matrix, and the `width`/`height` bounding-box dimensions. -/
structure ItemDefinition where
  id : String
  name : String
  color : String
  shape : List (List Nat)
  width : Nat
  height : Nat
deriving DecidableEq, Repr

/-- `PlacedItem` from `src/types.ts`: instance id, catalog key, top-left
grid coordinates and the (unused) rotation field. -/
structure PlacedItem where
  instanceId : String
  defId : String
  x : Int
  y : Int
  rotation : Int
deriving DecidableEq, Repr

/-- The item-type catalog: `Record<string, ItemDefinition>` read through
`defs[key]`, which yields `undefined` (here `none`) for a missing key. -/
abbrev Catalog : Type := String → Option ItemDefinition

/-- `itemDef.shape[r][c]` as read by the source: out-of-range indexing in
JavaScript yields `undefined`, which fails the `=== 1` tests; the default
`0` fails them likewise. -/
def shapeAt (d : ItemDefinition) (r c : Nat) : Nat :=
  (d.shape.getD r []).getD c 0

/-- An occupancy grid, read at `(gx, gy)` (column, row): the source array
access `grid[gy][gx]`. -/
abbrev OccGrid : Type := Int → Int → Option String

/-- The freshly allocated `rows × cols` grid of `null`s. -/
def emptyOcc : OccGrid := fun _ _ => none

/-- `BackpackSystem.getOccupancyGrid`: the source allocates the all-null
grid and returns it unchanged (its body is explicitly placeholder logic —
"We need the definitions to build the grid" — and never reads `this.items`
or `ignoreInstanceId`). -/
def getOccupancyGrid (rows cols : Nat) (items : List PlacedItem)
    (ignoreInstanceId : Option String) : OccGrid :=
  fun _ _ => none

/-- `BackpackSystem.canPlaceItem`: boundary check first, then the
collision scan of every occupied shape cell against the grid returned by
`getOccupancyGrid`; the loop's early `return false` is equivalent to the
decided bounded conjunction. -/
def canPlaceItem (rows cols : Nat) (items : List PlacedItem)
    (itemDef : ItemDefinition) (x y : Int) (ignoreInstanceId : Option String) : Bool :=
  if x < 0 ∨ y < 0 ∨ x + itemDef.width > (cols : Int) ∨ y + itemDef.height > (rows : Int) then
    false
  else
    decide (∀ r < itemDef.height, ∀ c < itemDef.width,
      shapeAt itemDef r c = 1 →
        getOccupancyGrid rows cols items ignoreInstanceId (x + c) (y + r) = none)

/-- Point update of an occupancy grid: `grid[gy][gx] = v`. -/
def writeCell (g : OccGrid) (gx gy : Int) (v : Option String) : OccGrid :=
  fun a b => if a = gx ∧ b = gy then v else g a b

/-- The body of the innermost loop of `getOccupancyGridWithDefs`: write
the owning instance id at the absolute cell if it lies within grid
bounds, else drop the write. -/
def markCell (rows cols : Nat) (iid : String) (gx gy : Int) (g : OccGrid) : OccGrid :=
  if 0 ≤ gy ∧ gy < (rows : Int) ∧ 0 ≤ gx ∧ gx < (cols : Int) then
    writeCell g gx gy (some iid)
  else g

/-- The `(r, c)` index pairs visited by the nested
`for r < height / for c < width` loops, in source order. -/
def cellList (d : ItemDefinition) : List (Nat × Nat) :=
  (List.range d.height).flatMap (fun r => (List.range d.width).map (fun c => (r, c)))

/-- The two inner loops of `getOccupancyGridWithDefs` for one item: every
occupied shape cell is written at `(item.x + c, item.y + r)`. -/
def markItem (rows cols : Nat) (d : ItemDefinition) (it : PlacedItem) (g : OccGrid) : OccGrid :=
  (cellList d).foldl
    (fun g rc =>
      if shapeAt d rc.1 rc.2 = 1 then
        markCell rows cols it.instanceId (it.x + rc.2) (it.y + rc.1) g
      else g)
    g

/-- `BackpackSystem.getOccupancyGridWithDefs`: iterate the items in list
order over the fresh all-null grid, skipping the ignored instance and any
item whose catalog entry is missing. -/
def getOccupancyGridWithDefs (rows cols : Nat) (items : List PlacedItem)
    (defs : Catalog) (ignoreInstanceId : Option String) : OccGrid :=
  items.foldl
    (fun g it =>
      if ignoreInstanceId = some it.instanceId then g
      else
        match defs it.defId with
        | none => g
        | some d => markItem rows cols d it g)
    emptyOcc

/-- Reading back a raw point update. -/
theorem writeCell_read (g : OccGrid) (gx gy : Int) (v : Option String) (a b : Int) :
    writeCell g gx gy v a b = if a = gx ∧ b = gy then v else g a b := rfl

/-- Reading a single-cell write back: the written value shows at the
written (in-bounds) cell, every other read is unchanged. -/
theorem markCell_read (rows cols : Nat) (iid : String) (a b gx gy : Int) (g : OccGrid) :
    markCell rows cols iid a b g gx gy =
      if gx = a ∧ gy = b ∧ 0 ≤ gy ∧ gy < (rows : Int) ∧ 0 ≤ gx ∧ gx < (cols : Int)
      then some iid else g gx gy := by
  simp only [markCell, ite_apply, writeCell_read]
  by_cases h1 : gx = a
  · subst h1
    by_cases h2 : gy = b
    · subst h2
      split_ifs <;> tauto
    · split_ifs <;> tauto
  · split_ifs <;> tauto

/-- Membership in the loop index-pair list. -/
theorem mem_cellList (d : ItemDefinition) (r c : Nat) :
    (r, c) ∈ cellList d ↔ r < d.height ∧ c < d.width := by
  constructor
  · intro h
    simp only [cellList, List.mem_flatMap, List.mem_map, List.mem_range] at h
    obtain ⟨r0, hr0, c0, hc0, heq⟩ := h
    obtain ⟨h1, h2⟩ := Prod.mk.injEq r0 c0 r c ▸ heq
    exact ⟨h1 ▸ hr0, h2 ▸ hc0⟩
  · intro h
    simp only [cellList, List.mem_flatMap, List.mem_map, List.mem_range]
    exact ⟨r, h.1, c, h.2, rfl⟩

/-- Characterization of one item's marking pass: a cell read afterwards
holds the item's instance id exactly when some occupied shape cell of the
item lands there within grid bounds, and is unchanged otherwise. -/
theorem markItem_read (rows cols : Nat) (d : ItemDefinition) (it : PlacedItem)
    (g : OccGrid) (gx gy : Int) :
    markItem rows cols d it g gx gy =
      if (∃ r < d.height, ∃ c < d.width, shapeAt d r c = 1 ∧
            gx = it.x + c ∧ gy = it.y + r ∧
            0 ≤ gy ∧ gy < (rows : Int) ∧ 0 ≤ gx ∧ gx < (cols : Int))
      then some it.instanceId else g gx gy := by
  have key : ∀ (l : List (Nat × Nat)) (g : OccGrid),
      (l.foldl
        (fun g rc =>
          if shapeAt d rc.1 rc.2 = 1 then
            markCell rows cols it.instanceId (it.x + rc.2) (it.y + rc.1) g
          else g)
        g) gx gy =
      if (∃ rc ∈ l, shapeAt d rc.1 rc.2 = 1 ∧
            gx = it.x + rc.2 ∧ gy = it.y + rc.1 ∧
            0 ≤ gy ∧ gy < (rows : Int) ∧ 0 ≤ gx ∧ gx < (cols : Int))
      then some it.instanceId else g gx gy := by
    intro l
    induction l with
    | nil => intro g; simp
    | cons p t ih =>
      intro g
      rw [List.foldl_cons, ih]
      by_cases hp : shapeAt d p.1 p.2 = 1 ∧
          gx = it.x + p.2 ∧ gy = it.y + p.1 ∧
          0 ≤ gy ∧ gy < (rows : Int) ∧ 0 ≤ gx ∧ gx < (cols : Int)
      · have hcons : ∃ rc ∈ p :: t, shapeAt d rc.1 rc.2 = 1 ∧
            gx = it.x + rc.2 ∧ gy = it.y + rc.1 ∧
            0 ≤ gy ∧ gy < (rows : Int) ∧ 0 ≤ gx ∧ gx < (cols : Int) :=
          ⟨p, List.mem_cons_self p t, hp⟩
        rw [if_pos hcons]
        by_cases ht : ∃ rc ∈ t, shapeAt d rc.1 rc.2 = 1 ∧
            gx = it.x + rc.2 ∧ gy = it.y + rc.1 ∧
            0 ≤ gy ∧ gy < (rows : Int) ∧ 0 ≤ gx ∧ gx < (cols : Int)
        · rw [if_pos ht]
        · rw [if_neg ht, if_pos hp.1, markCell_read, if_pos ⟨hp.2.1, hp.2.2⟩]
      · have hsplit : (∃ rc ∈ p :: t, shapeAt d rc.1 rc.2 = 1 ∧
            gx = it.x + rc.2 ∧ gy = it.y + rc.1 ∧
            0 ≤ gy ∧ gy < (rows : Int) ∧ 0 ≤ gx ∧ gx < (cols : Int)) ↔
            (∃ rc ∈ t, shapeAt d rc.1 rc.2 = 1 ∧
            gx = it.x + rc.2 ∧ gy = it.y + rc.1 ∧
            0 ≤ gy ∧ gy < (rows : Int) ∧ 0 ≤ gx ∧ gx < (cols : Int)) := by
          constructor
          · rintro ⟨rc, hrc, hc⟩
            rcases List.mem_cons.mp hrc with h | h
            · exact absurd (h ▸ hc) hp
            · exact ⟨rc, h, hc⟩
          · rintro ⟨rc, hrc, hc⟩
            exact ⟨rc, List.mem_cons_of_mem p hrc, hc⟩
        rw [if_congr hsplit rfl rfl]
        by_cases ht : ∃ rc ∈ t, shapeAt d rc.1 rc.2 = 1 ∧
            gx = it.x + rc.2 ∧ gy = it.y + rc.1 ∧
            0 ≤ gy ∧ gy < (rows : Int) ∧ 0 ≤ gx ∧ gx < (cols : Int)
        · rw [if_pos ht, if_pos ht]
        · rw [if_neg ht, if_neg ht]
          by_cases hs : shapeAt d p.1 p.2 = 1
          · rw [if_pos hs, markCell_read, if_neg]
            intro hcond
            exact hp ⟨hs, hcond⟩
          · rw [if_neg hs]
  rw [markItem, key]
  have hmem : (∃ rc ∈ cellList d, shapeAt d rc.1 rc.2 = 1 ∧
        gx = it.x + rc.2 ∧ gy = it.y + rc.1 ∧
        0 ≤ gy ∧ gy < (rows : Int) ∧ 0 ≤ gx ∧ gx < (cols : Int)) ↔
      (∃ r < d.height, ∃ c < d.width, shapeAt d r c = 1 ∧
        gx = it.x + c ∧ gy = it.y + r ∧
        0 ≤ gy ∧ gy < (rows : Int) ∧ 0 ≤ gx ∧ gx < (cols : Int)) := by
    constructor
    · rintro ⟨⟨r, c⟩, hrc, hc⟩
      obtain ⟨hr, hcw⟩ := (mem_cellList d r c).mp hrc
      exact ⟨r, hr, c, hcw, hc⟩
    · rintro ⟨r, hr, c, hc, hcond⟩
      exact ⟨(r, c), (mem_cellList d r c).mpr ⟨hr, hc⟩, hcond⟩
  rw [if_congr hmem rfl rfl]

/-- The grid constants from `src/types.ts`. -/
def GRID_ROWS : Nat := 8

/-- The grid constants from `src/types.ts`. -/
def GRID_COLS : Nat := 8

/-- Catalog entry `potion` from `src/constants.ts`. -/
def potionDef : ItemDefinition :=
  { id := "potion", name := "Health Potion", color := "bg-red-500",
    shape := [[1], [1]], width := 1, height := 2 }

/-- Catalog entry `sword` from `src/constants.ts`. -/
def swordDef : ItemDefinition :=
  { id := "sword", name := "Iron Sword", color := "bg-slate-400",
    shape := [[0, 1, 0], [0, 1, 0], [1, 1, 1], [0, 1, 0]], width := 3, height := 4 }

/-- Catalog entry `shield` from `src/constants.ts`. -/
def shieldDef : ItemDefinition :=
  { id := "shield", name := "Wooden Shield", color := "bg-amber-600",
    shape := [[1, 1], [1, 1]], width := 2, height := 2 }

/-- Catalog entry `bow` from `src/constants.ts`. -/
def bowDef : ItemDefinition :=
  { id := "bow", name := "Longbow", color := "bg-emerald-600",
    shape := [[1, 0], [1, 0], [1, 1]], width := 2, height := 3 }

/-- Catalog entry `gem` from `src/constants.ts`. -/
def gemDef : ItemDefinition :=
  { id := "gem", name := "Magic Gem", color := "bg-purple-500",
    shape := [[1]], width := 1, height := 1 }

/-- Catalog entry `boots` from `src/constants.ts`. -/
def bootsDef : ItemDefinition :=
  { id := "boots", name := "Leather Boots", color := "bg-yellow-700",
    shape := [[1, 1], [1, 0]], width := 2, height := 2 }

/-- The `ITEM_DEFINITIONS` record from `src/constants.ts` as a lookup. -/
def ITEM_DEFINITIONS : Catalog := fun key =>
  if key = "potion" then some potionDef
  else if key = "sword" then some swordDef
  else if key = "shield" then some shieldDef
  else if key = "bow" then some bowDef
  else if key = "gem" then some gemDef
  else if key = "boots" then some bootsDef
  else none

/-- Specification-side predicate: the placed item is not the ignored one,
its catalog entry exists, and one of its occupied shape cells lands on the
absolute cell `(gx, gy)`. -/
def coversB (defs : Catalog) (ign : Option String) (it : PlacedItem) (gx gy : Int) : Bool :=
  if ign = some it.instanceId then false
  else
    match defs it.defId with
    | none => false
    | some d =>
      decide (∃ r < d.height, ∃ c < d.width,
        shapeAt d r c = 1 ∧ gx = it.x + c ∧ gy = it.y + r)

/-- Specification-side resolver: the instance id of the last item in list
order that covers `(gx, gy)`, or `none` when no item covers it. -/
def lastCoverId (defs : Catalog) (ign : Option String) (gx gy : Int) :
    List PlacedItem → Option String
  | [] => none
  | it :: rest =>
    match lastCoverId defs ign gx gy rest with
    | some i => some i
    | none => if coversB defs ign it gx gy then some it.instanceId else none

/-- Reading the occupancy fold at an in-bounds cell yields the last
covering item's id, or the initial grid's value when none covers it. -/
theorem occFold_read (rows cols : Nat) (defs : Catalog) (ign : Option String)
    (gx gy : Int) (hgx0 : 0 ≤ gx) (hgxc : gx < (cols : Int))
    (hgy0 : 0 ≤ gy) (hgyr : gy < (rows : Int)) :
    ∀ (items : List PlacedItem) (g : OccGrid),
      (items.foldl
        (fun g it =>
          if ign = some it.instanceId then g
          else
            match defs it.defId with
            | none => g
            | some d => markItem rows cols d it g)
        g) gx gy =
      match lastCoverId defs ign gx gy items with
      | some i => some i
      | none => g gx gy := by
  intro items
  induction items with
  | nil => intro g; rfl
  | cons it rest ih =>
    intro g
    rw [List.foldl_cons, ih]
    cases hrest : lastCoverId defs ign gx gy rest with
    | some i => simp [lastCoverId, hrest]
    | none =>
      simp only [lastCoverId, hrest]
      by_cases hskip : ign = some it.instanceId
      · simp [hskip, coversB]
      · cases hdef : defs it.defId with
        | none => simp [hskip, hdef, coversB]
        | some d =>
          simp only [if_neg hskip, hdef]
          rw [markItem_read]
          by_cases hcov : ∃ r < d.height, ∃ c < d.width,
              shapeAt d r c = 1 ∧ gx = it.x + c ∧ gy = it.y + r
          · have hcond : ∃ r < d.height, ∃ c < d.width,
                shapeAt d r c = 1 ∧ gx = it.x + c ∧ gy = it.y + r ∧
                0 ≤ gy ∧ gy < (rows : Int) ∧ 0 ≤ gx ∧ gx < (cols : Int) := by
              obtain ⟨r, hr, c, hc, h1, h2, h3⟩ := hcov
              exact ⟨r, hr, c, hc, h1, h2, h3, hgy0, hgyr, hgx0, hgxc⟩
            rw [if_pos hcond]
            have hcb : coversB defs ign it gx gy = true := by
              unfold coversB
              rw [if_neg hskip, hdef]
              exact decide_eq_true hcov
            simp [hcb]
          · have hcond : ¬(∃ r < d.height, ∃ c < d.width,
                shapeAt d r c = 1 ∧ gx = it.x + c ∧ gy = it.y + r ∧
                0 ≤ gy ∧ gy < (rows : Int) ∧ 0 ≤ gx ∧ gx < (cols : Int)) := by
              rintro ⟨r, hr, c, hc, h1, h2, h3, _⟩
              exact hcov ⟨r, hr, c, hc, h1, h2, h3⟩
            rw [if_neg hcond]
            have hcb : coversB defs ign it gx gy = false := by
              unfold coversB
              rw [if_neg hskip, hdef]
              exact decide_eq_false hcov
            simp [hcb]

/-- Shared characterization: `canPlaceItem` decides exactly the bounds
condition, because the grid it consults is the all-null placeholder. -/
theorem canPlaceItem_iff (rows cols : Nat) (items : List PlacedItem)
    (d : ItemDefinition) (x y : Int) (ign : Option String) :
    canPlaceItem rows cols items d x y ign = true ↔
      (0 ≤ x ∧ 0 ≤ y ∧ x + d.width ≤ (cols : Int) ∧ y + d.height ≤ (rows : Int)) := by
  unfold canPlaceItem
  by_cases h : x < 0 ∨ y < 0 ∨ x + d.width > (cols : Int) ∨ y + d.height > (rows : Int)
  · rw [if_pos h]
    constructor
    · intro hfalse
      exact absurd hfalse (by simp)
    · intro hb
      omega
  · rw [if_neg h]
    have htriv : ∀ r < d.height, ∀ c < d.width,
        shapeAt d r c = 1 →
          getOccupancyGrid rows cols items ign (x + c) (y + r) = none :=
      fun _ _ _ _ _ => rfl
    rw [decide_eq_true htriv]
    constructor
    · intro _
      omega
    · intro _
      rfl

/-- Already-placed concrete items used in the concrete scenarios. -/
def gemA : PlacedItem :=
  { instanceId := "gemA", defId := "gem", x := 0, y := 0, rotation := 0 }

/-- Concrete potion instance at (2, 3). -/
def potionP1 : PlacedItem :=
  { instanceId := "P1", defId := "potion", x := 2, y := 3, rotation := 0 }

/-- Concrete boots instance at (0, 0). -/
def bootsB1 : PlacedItem :=
  { instanceId := "B1", defId := "boots", x := 0, y := 0, rotation := 0 }

/-- C1: the collision half of the claim fails on the code. A gem occupies
cell (0, 0) — `getOccupancyGridWithDefs` confirms the cell is owned — yet
`canPlaceItem` accepts placing a second gem right there, because the
`getOccupancyGrid` it consults is the all-null placeholder. The claim
demands `false`; the code returns `true`. -/
theorem claim_C1_collision_missed :
    canPlaceItem 8 8 [gemA] gemDef 0 0 none = true ∧
    getOccupancyGridWithDefs 8 8 [gemA] ITEM_DEFINITIONS none 0 0 = some "gemA" := by
  constructor
  · decide
  · decide

/-- C2: the no-ignore half of the claim fails on the code. A potion placed
at (2, 3) re-validated at its own position yields `true` with its id
ignored (as the claim says) but also `true` with no ignore argument, where
the claim demands `false` (self-collision): the occupancy grid consulted
by `canPlaceItem` is the all-null placeholder. -/
theorem claim_C2_self_ignore :
    canPlaceItem 8 8 [potionP1] potionDef 2 3 (some "P1") = true ∧
    canPlaceItem 8 8 [potionP1] potionDef 2 3 none = true := by
  constructor
  · decide
  · decide

/-- C3: `canPlaceItem` returns `true` exactly on the bounds condition
`0 ≤ x ∧ 0 ≤ y ∧ x + width ≤ cols ∧ y + height ≤ rows`, for every item
list and ignore argument, and the `getOccupancyGrid` it consults returns
the all-null grid on every input, so the result never depends on the
placed items. -/
theorem claim_C3_canPlaceItem_bounds_only (rows cols : Nat) (items : List PlacedItem)
    (d : ItemDefinition) (x y : Int) (ign : Option String) :
    (canPlaceItem rows cols items d x y ign = true ↔
      (0 ≤ x ∧ 0 ≤ y ∧ x + d.width ≤ (cols : Int) ∧ y + d.height ≤ (rows : Int))) ∧
    (∀ gx gy : Int, getOccupancyGrid rows cols items ign gx gy = none) :=
  ⟨canPlaceItem_iff rows cols items d x y ign, fun _ _ => rfl⟩

/-- C5: at every in-bounds cell, the occupancy grid built with the catalog
holds the instance id of the last item in list order having an occupied
shape cell landing there (skipping the ignored instance and items missing
from the catalog), and `none` when no such item exists; out-of-bounds
shape cells are dropped by the bounds guard. Concretely, the boots shape
`[[1,1],[1,0]]` at (0, 0) on the 8×8 grid marks exactly (0,0), (1,0) and
(0,1), leaving (1,1) free, where a gem probe validates `true`. -/
theorem claim_C5_occupancy_characterization :
    (∀ (rows cols : Nat) (items : List PlacedItem) (defs : Catalog)
        (ign : Option String) (gx gy : Int),
      0 ≤ gx → gx < (cols : Int) → 0 ≤ gy → gy < (rows : Int) →
      getOccupancyGridWithDefs rows cols items defs ign gx gy =
        lastCoverId defs ign gx gy items) ∧
    (getOccupancyGridWithDefs 8 8 [bootsB1] ITEM_DEFINITIONS none 0 0 = some "B1" ∧
     getOccupancyGridWithDefs 8 8 [bootsB1] ITEM_DEFINITIONS none 1 0 = some "B1" ∧
     getOccupancyGridWithDefs 8 8 [bootsB1] ITEM_DEFINITIONS none 0 1 = some "B1" ∧
     getOccupancyGridWithDefs 8 8 [bootsB1] ITEM_DEFINITIONS none 1 1 = none) ∧
    canPlaceItem 8 8 [bootsB1] gemDef 1 1 none = true := by
  refine ⟨?_, ⟨?_, ?_, ?_, ?_⟩, ?_⟩
  · intro rows cols items defs ign gx gy hgx0 hgxc hgy0 hgyr
    rw [getOccupancyGridWithDefs,
      occFold_read rows cols defs ign gx gy hgx0 hgxc hgy0 hgyr items emptyOcc]
    cases lastCoverId defs ign gx gy items with
    | none => rfl
    | some i => rfl
  · decide
  · decide
  · decide
  · decide
  · decide

/-- C5 witness: the characterization applied to the boots scenario cell
(0, 0). -/
theorem claim_C5_occupancy_characterization_witness :
    getOccupancyGridWithDefs 8 8 [bootsB1] ITEM_DEFINITIONS none 0 0 =
      lastCoverId ITEM_DEFINITIONS none 0 0 [bootsB1] :=
  claim_C5_occupancy_characterization.1 8 8 [bootsB1] ITEM_DEFINITIONS none 0 0
    (by decide) (by decide) (by decide) (by decide)

/-- C8: whenever the candidate violates the bounds condition, the result
is `false`, for every item list and ignore argument; the source performs
this check before building the occupancy grid. -/
theorem claim_C8_bounds_reject (rows cols : Nat) (items : List PlacedItem)
    (d : ItemDefinition) (x y : Int) (ign : Option String)
    (h : x < 0 ∨ y < 0 ∨ x + d.width > (cols : Int) ∨ y + d.height > (rows : Int)) :
    canPlaceItem rows cols items d x y ign = false := by
  unfold canPlaceItem
  rw [if_pos h]

/-- C8 witness: a gem at x = −1 on the 8×8 grid is rejected. -/
theorem claim_C8_bounds_reject_witness :
    ((-1 : Int) < 0 ∨ (0 : Int) < 0 ∨ (-1 : Int) + gemDef.width > (8 : Int) ∨
      (0 : Int) + gemDef.height > (8 : Int)) ∧
    canPlaceItem 8 8 [] gemDef (-1) 0 none = false :=
  ⟨Or.inl (by decide),
   claim_C8_bounds_reject 8 8 [] gemDef (-1) 0 none (Or.inl (by decide))⟩

/-- C9: with no items placed, every in-bounds position is accepted. -/
theorem claim_C9_empty_grid_accepts (rows cols : Nat) (d : ItemDefinition)
    (x y : Int) (ign : Option String)
    (h1 : 0 ≤ x) (h2 : 0 ≤ y) (h3 : x + d.width ≤ (cols : Int))
    (h4 : y + d.height ≤ (rows : Int)) :
    canPlaceItem rows cols [] d x y ign = true :=
  (canPlaceItem_iff rows cols [] d x y ign).mpr ⟨h1, h2, h3, h4⟩

/-- C9 witness: the potion at (0, 0) on the empty 8×8 grid. -/
theorem claim_C9_empty_grid_accepts_witness :
    canPlaceItem 8 8 [] potionDef 0 0 none = true :=
  claim_C9_empty_grid_accepts 8 8 potionDef 0 0 none
    (by decide) (by decide) (by decide) (by decide)

/-- The boolean working grid (`tempGrid`) of `organize`. -/
abbrev TempGrid : Type := Int → Int → Bool

/-- Bounding-box area `width * height` as read by the comparator of
`organize`'s sort. The source dereferences `defs[defId]` with no guard,
so this value is only ever consulted when the entry exists; the `0`
default is unreachable under the coverage check `organize` performs
before sorting (a missing entry throws instead). -/
def areaD (defs : Catalog) (it : PlacedItem) : Nat :=
  match defs it.defId with
  | some d => d.width * d.height
  | none => 0

/-- One insertion step of the stable descending sort: the inserted
element moves past exactly the elements with strictly larger area, so
equal-area elements keep their input order. -/
def insertByArea (defs : Catalog) (it : PlacedItem) : List PlacedItem → List PlacedItem
  | [] => [it]
  | b :: rest =>
    if areaD defs it < areaD defs b then b :: insertByArea defs it rest
    else it :: b :: rest

/-- `[...this.items].sort((a, b) => areaB - areaA)`: an ECMAScript sort
with a consistent comparator is stable, and a stable descending-by-area
sort of a list is uniquely determined, so insertion sort with the same
ordering is a faithful embedding of it. -/
def sortByAreaDesc (defs : Catalog) : List PlacedItem → List PlacedItem
  | [] => []
  | a :: rest => insertByArea defs a (sortByAreaDesc defs rest)

/-- Membership is preserved by insertion. -/
theorem mem_insertByArea (defs : Catalog) (it x : PlacedItem) (l : List PlacedItem) :
    x ∈ insertByArea defs it l ↔ x = it ∨ x ∈ l := by
  induction l with
  | nil => simp [insertByArea]
  | cons b rest ih =>
    simp only [insertByArea]
    split_ifs with h
    · simp only [List.mem_cons, ih]
      tauto
    · simp [List.mem_cons]

/-- Insertion produces a permutation of consing. -/
theorem perm_insertByArea (defs : Catalog) (it : PlacedItem) (l : List PlacedItem) :
    (insertByArea defs it l).Perm (it :: l) := by
  induction l with
  | nil => exact List.Perm.refl _
  | cons b rest ih =>
    simp only [insertByArea]
    split_ifs with h
    · exact (ih.cons b).trans (List.Perm.swap it b rest)
    · exact List.Perm.refl _

/-- The embedded sort permutes its input. -/
theorem perm_sortByAreaDesc (defs : Catalog) (items : List PlacedItem) :
    (sortByAreaDesc defs items).Perm items := by
  induction items with
  | nil => exact List.Perm.refl _
  | cons a rest ih =>
    simp only [sortByAreaDesc]
    exact (perm_insertByArea defs a (sortByAreaDesc defs rest)).trans (ih.cons a)

/-- Insertion preserves the descending-by-area ordering. -/
theorem pairwise_insertByArea (defs : Catalog) (it : PlacedItem) (l : List PlacedItem)
    (h : l.Pairwise (fun a b => areaD defs b ≤ areaD defs a)) :
    (insertByArea defs it l).Pairwise (fun a b => areaD defs b ≤ areaD defs a) := by
  induction l with
  | nil => simp [insertByArea]
  | cons b rest ih =>
    obtain ⟨hb, hrest⟩ := List.pairwise_cons.mp h
    simp only [insertByArea]
    split_ifs with hlt
    · rw [List.pairwise_cons]
      refine ⟨?_, ih hrest⟩
      intro x hx
      rcases (mem_insertByArea defs it x rest).mp hx with rfl | hx2
      · exact Nat.le_of_lt hlt
      · exact hb x hx2
    · rw [List.pairwise_cons]
      refine ⟨?_, List.pairwise_cons.mpr ⟨hb, hrest⟩⟩
      intro x hx
      rcases List.mem_cons.mp hx with rfl | hx2
      · exact Nat.le_of_not_lt hlt
      · exact Nat.le_trans (hb x hx2) (Nat.le_of_not_lt hlt)

/-- The embedded sort is sorted by descending area. -/
theorem pairwise_sortByAreaDesc (defs : Catalog) (items : List PlacedItem) :
    (sortByAreaDesc defs items).Pairwise (fun a b => areaD defs b ≤ areaD defs a) := by
  induction items with
  | nil => simp [sortByAreaDesc]
  | cons a rest ih =>
    exact pairwise_insertByArea defs a (sortByAreaDesc defs rest) ih

/-- Inserting into a descending list keeps each equal-area fiber's order:
the inserted element lands before every element of equal area. -/
theorem filter_insertByArea (defs : Catalog) (A : Nat) (it : PlacedItem)
    (l : List PlacedItem)
    (h : l.Pairwise (fun a b => areaD defs b ≤ areaD defs a)) :
    (insertByArea defs it l).filter (fun x => decide (areaD defs x = A)) =
      if areaD defs it = A then
        it :: l.filter (fun x => decide (areaD defs x = A))
      else l.filter (fun x => decide (areaD defs x = A)) := by
  induction l with
  | nil =>
    simp only [insertByArea]
    by_cases hit : areaD defs it = A <;> simp [List.filter_cons, hit]
  | cons b rest ih =>
    obtain ⟨hb, hrest⟩ := List.pairwise_cons.mp h
    simp only [insertByArea]
    by_cases hlt : areaD defs it < areaD defs b
    · rw [if_pos hlt]
      by_cases hit : areaD defs it = A
      · have hbA : ¬(areaD defs b = A) := by omega
        rw [if_pos hit]
        simp [List.filter_cons, hbA, hit, ih hrest]
      · rw [if_neg hit]
        rw [List.filter_cons, List.filter_cons, ih hrest, if_neg hit]
    · rw [if_neg hlt]
      by_cases hit : areaD defs it = A
      · rw [if_pos hit, List.filter_cons]
        simp [hit]
      · rw [if_neg hit, List.filter_cons]
        simp [hit]

/-- Stability of the embedded sort: for every area value, the sublist of
items with that area is exactly the input's sublist, in input order. -/
theorem filter_sortByAreaDesc (defs : Catalog) (A : Nat) (items : List PlacedItem) :
    (sortByAreaDesc defs items).filter (fun x => decide (areaD defs x = A)) =
      items.filter (fun x => decide (areaD defs x = A)) := by
  induction items with
  | nil => simp [sortByAreaDesc]
  | cons a rest ih =>
    simp only [sortByAreaDesc]
    rw [filter_insertByArea defs A a (sortByAreaDesc defs rest)
      (pairwise_sortByAreaDesc defs rest), ih, List.filter_cons]
    by_cases ha : areaD defs a = A <;> simp [ha]

/-- The collision test of `organize` at one candidate position: every
occupied shape cell must be free in the working grid; the loop's early
break on the first collision is equivalent to the decided conjunction. -/
def fitsAt (tg : TempGrid) (d : ItemDefinition) (x y : Int) : Bool :=
  decide (∀ r < d.height, ∀ c < d.width,
    shapeAt d r c = 1 → tg (x + c) (y + r) = false)

/-- The candidate top-left positions scanned by `organize`, in source
order: outer loop `y` from `0` to `rows - height` inclusive, inner loop
`x` from `0` to `cols - width` inclusive. When the shape exceeds the grid
the JavaScript bound `rows - height` is negative and the loop body never
runs; `rows + 1 - height` truncates to `0` accordingly. -/
def candidatePositions (rows cols : Nat) (d : ItemDefinition) : List (Nat × Nat) :=
  (List.range (rows + 1 - d.height)).flatMap
    (fun y => (List.range (cols + 1 - d.width)).map (fun x => (x, y)))

/-- The scan of `organize` for one item: the first candidate position the
shape fits at, or `none` when it fits nowhere. -/
def findFirstFit (rows cols : Nat) (d : ItemDefinition) (tg : TempGrid) :
    Option (Nat × Nat) :=
  (candidatePositions rows cols d).find?
    (fun p => fitsAt tg d (p.1 : Int) (p.2 : Int))

/-- Point update of the working grid: `tempGrid[gy][gx] = true`. -/
def writeTemp (tg : TempGrid) (gx gy : Int) : TempGrid :=
  fun a b => if a = gx ∧ b = gy then true else tg a b

/-- The marking loops of `organize` after a successful placement: every
occupied shape cell of the item is set `true` (the scan bounds guarantee
these writes are in range, so the source has no bounds guard here). -/
def markTemp (d : ItemDefinition) (x y : Int) (tg : TempGrid) : TempGrid :=
  (cellList d).foldl
    (fun tg rc =>
      if shapeAt d rc.1 rc.2 = 1 then writeTemp tg (x + rc.2) (y + rc.1) else tg)
    tg

/-- One iteration of `organize`'s outer loop: look the definition up (a
missing entry is unreachable under the coverage check; the source throws
there), scan for the first fit, and on success append the repositioned
copy `{ ...item, x, y }` and mark its cells. -/
def organizeStep (rows cols : Nat) (defs : Catalog)
    (acc : List PlacedItem × TempGrid) (it : PlacedItem) : List PlacedItem × TempGrid :=
  match defs it.defId with
  | none => acc
  | some d =>
    match findFirstFit rows cols d acc.2 with
    | none => acc
    | some p =>
      (acc.1 ++ [{ it with x := (p.1 : Int), y := (p.2 : Int) }],
        markTemp d (p.1 : Int) (p.2 : Int) acc.2)

/-- The body of `BackpackSystem.organize` once the catalog is known to
cover every item: sort, then first-fit place each item over an initially
all-free working grid, keeping only what fits. -/
def organizeCore (rows cols : Nat) (defs : Catalog) (items : List PlacedItem) :
    List PlacedItem :=
  ((sortByAreaDesc defs items).foldl (organizeStep rows cols defs)
    ([], fun _ _ => false)).1

/-- `BackpackSystem.organize`: the source dereferences `defs[item.defId]`
unguarded in the sort comparator and in the placement loop, so a missing
catalog entry for any input item throws a `TypeError` (modelled as
`none`); otherwise the first-fit packing result is returned. -/
def organize (rows cols : Nat) (defs : Catalog) (items : List PlacedItem) :
    Option (List PlacedItem) :=
  if items.all (fun it => (defs it.defId).isSome) then
    some (organizeCore rows cols defs items)
  else none

/-- Reading back a raw working-grid update. -/
theorem writeTemp_read (tg : TempGrid) (gx gy a b : Int) :
    writeTemp tg gx gy a b = if a = gx ∧ b = gy then true else tg a b := rfl

/-- Characterization of the marking pass: a cell reads `true` afterwards
exactly when some occupied shape cell lands there, and is unchanged
otherwise. -/
theorem markTemp_read (d : ItemDefinition) (x y : Int) (tg : TempGrid) (a b : Int) :
    markTemp d x y tg a b =
      if (∃ r < d.height, ∃ c < d.width,
            shapeAt d r c = 1 ∧ a = x + c ∧ b = y + r)
      then true else tg a b := by
  have key : ∀ (l : List (Nat × Nat)) (tg : TempGrid),
      (l.foldl
        (fun tg rc =>
          if shapeAt d rc.1 rc.2 = 1 then writeTemp tg (x + rc.2) (y + rc.1) else tg)
        tg) a b =
      if (∃ rc ∈ l, shapeAt d rc.1 rc.2 = 1 ∧ a = x + rc.2 ∧ b = y + rc.1)
      then true else tg a b := by
    intro l
    induction l with
    | nil => intro tg; simp
    | cons p t ih =>
      intro tg
      rw [List.foldl_cons, ih]
      by_cases hp : shapeAt d p.1 p.2 = 1 ∧ a = x + p.2 ∧ b = y + p.1
      · have hcons : ∃ rc ∈ p :: t, shapeAt d rc.1 rc.2 = 1 ∧
            a = x + rc.2 ∧ b = y + rc.1 := ⟨p, List.mem_cons_self p t, hp⟩
        rw [if_pos hcons]
        by_cases ht : ∃ rc ∈ t, shapeAt d rc.1 rc.2 = 1 ∧ a = x + rc.2 ∧ b = y + rc.1
        · rw [if_pos ht]
        · rw [if_neg ht, if_pos hp.1, writeTemp_read, if_pos ⟨hp.2.1, hp.2.2⟩]
      · have hsplit : (∃ rc ∈ p :: t, shapeAt d rc.1 rc.2 = 1 ∧
            a = x + rc.2 ∧ b = y + rc.1) ↔
            (∃ rc ∈ t, shapeAt d rc.1 rc.2 = 1 ∧ a = x + rc.2 ∧ b = y + rc.1) := by
          constructor
          · rintro ⟨rc, hrc, hc⟩
            rcases List.mem_cons.mp hrc with h | h
            · exact absurd (h ▸ hc) hp
            · exact ⟨rc, h, hc⟩
          · rintro ⟨rc, hrc, hc⟩
            exact ⟨rc, List.mem_cons_of_mem p hrc, hc⟩
        rw [if_congr hsplit rfl rfl]
        by_cases ht : ∃ rc ∈ t, shapeAt d rc.1 rc.2 = 1 ∧ a = x + rc.2 ∧ b = y + rc.1
        · rw [if_pos ht, if_pos ht]
        · rw [if_neg ht, if_neg ht]
          by_cases hs : shapeAt d p.1 p.2 = 1
          · rw [if_pos hs, writeTemp_read, if_neg]
            intro hcond
            exact hp ⟨hs, hcond⟩
          · rw [if_neg hs]
  rw [markTemp, key]
  have hmem : (∃ rc ∈ cellList d, shapeAt d rc.1 rc.2 = 1 ∧
        a = x + rc.2 ∧ b = y + rc.1) ↔
      (∃ r < d.height, ∃ c < d.width,
        shapeAt d r c = 1 ∧ a = x + c ∧ b = y + r) := by
    constructor
    · rintro ⟨⟨r, c⟩, hrc, hc⟩
      obtain ⟨hr, hcw⟩ := (mem_cellList d r c).mp hrc
      exact ⟨r, hr, c, hcw, hc⟩
    · rintro ⟨r, hr, c, hc, hcond⟩
      exact ⟨(r, c), (mem_cellList d r c).mpr ⟨hr, hc⟩, hcond⟩
  rw [if_congr hmem rfl rfl]

/-- Membership in the candidate scan list is exactly the bounds condition
for the shape's bounding box. -/
theorem mem_candidatePositions (rows cols : Nat) (d : ItemDefinition) (x y : Nat) :
    (x, y) ∈ candidatePositions rows cols d ↔
      x + d.width ≤ cols ∧ y + d.height ≤ rows := by
  simp only [candidatePositions, List.mem_flatMap, List.mem_map, List.mem_range]
  constructor
  · rintro ⟨y0, hy0, x0, hx0, heq⟩
    obtain ⟨h1, h2⟩ := Prod.mk.injEq x0 y0 x y ▸ heq
    omega
  · intro h
    exact ⟨y, by omega, x, by omega, rfl⟩

/-- Row-major scan order: a candidate is strictly before another when its
row is smaller, or the rows agree and its column is smaller. -/
def rmBefore (p q : Nat × Nat) : Prop :=
  p.2 < q.2 ∨ (p.2 = q.2 ∧ p.1 < q.1)

/-- The candidate list is strictly increasing in row-major order. -/
theorem pairwise_candidatePositions (rows cols : Nat) (d : ItemDefinition) :
    (candidatePositions rows cols d).Pairwise rmBefore := by
  rw [candidatePositions, List.pairwise_flatMap]
  constructor
  · intro y hy
    rw [List.pairwise_map]
    exact (List.pairwise_lt_range _).imp (fun h => Or.inr ⟨rfl, h⟩)
  · refine (List.pairwise_lt_range _).imp ?_
    intro y1 y2 hlt p hp q hq
    simp only [List.mem_map, List.mem_range] at hp hq
    obtain ⟨x1, hx1, hep⟩ := hp
    obtain ⟨x2, hx2, heq⟩ := hq
    subst hep
    subst heq
    exact Or.inl hlt

/-- Soundness and row-major minimality of the scan: a returned position
fits, is in bounds, and every in-bounds position strictly earlier in the
scan order does not fit. -/
theorem findFirstFit_spec (rows cols : Nat) (d : ItemDefinition) (tg : TempGrid)
    (x y : Nat) (h : findFirstFit rows cols d tg = some (x, y)) :
    fitsAt tg d x y = true ∧ x + d.width ≤ cols ∧ y + d.height ≤ rows ∧
    ∀ x2 y2 : Nat, x2 + d.width ≤ cols → y2 + d.height ≤ rows →
      (y2 < y ∨ (y2 = y ∧ x2 < x)) → fitsAt tg d x2 y2 = false := by
  unfold findFirstFit at h
  rw [List.find?_eq_some] at h
  obtain ⟨hfit, as, bs, heq, hprefix⟩ := h
  have hmem : (x, y) ∈ candidatePositions rows cols d := by
    rw [heq]
    exact List.mem_append_right _ (List.mem_cons_self _ _)
  obtain ⟨hxb, hyb⟩ := (mem_candidatePositions rows cols d x y).mp hmem
  refine ⟨hfit, hxb, hyb, ?_⟩
  intro x2 y2 hx2 hy2 hbefore
  have hmem2 : (x2, y2) ∈ candidatePositions rows cols d :=
    (mem_candidatePositions rows cols d x2 y2).mpr ⟨hx2, hy2⟩
  have hpw := pairwise_candidatePositions rows cols d
  rw [heq] at hmem2 hpw
  rcases List.mem_append.mp hmem2 with hin | hin
  · have := hprefix _ hin
    simpa using this
  · exfalso
    rcases List.mem_cons.mp hin with heqq | hin2
    · obtain ⟨h1, h2⟩ := Prod.mk.injEq x2 y2 x y ▸ heqq
      omega
    · have hpw2 := (List.pairwise_append.mp hpw).2.1
      have hR := (List.pairwise_cons.mp hpw2).1 _ hin2
      simp only [rmBefore] at hR
      rcases hR with h | ⟨h1, h2⟩ <;> omega

/-- A placed item occupies the absolute cell `(gx, gy)`: its catalog
entry exists and one of its occupied shape cells lands there. -/
def occupiesCell (defs : Catalog) (it : PlacedItem) (gx gy : Int) : Prop :=
  ∃ d, defs it.defId = some d ∧ ∃ r < d.height, ∃ c < d.width,
    shapeAt d r c = 1 ∧ gx = it.x + c ∧ gy = it.y + r

/-- Two placed items have no common occupied absolute cell. -/
def disjointItems (defs : Catalog) (a b : PlacedItem) : Prop :=
  ∀ gx gy : Int, occupiesCell defs a gx gy → occupiesCell defs b gx gy → False

/-- A placed item's full bounding box lies within the grid. -/
def inBoundsItem (rows cols : Nat) (defs : Catalog) (it : PlacedItem) : Prop :=
  ∃ d, defs it.defId = some d ∧ 0 ≤ it.x ∧ 0 ≤ it.y ∧
    it.x + d.width ≤ (cols : Int) ∧ it.y + d.height ≤ (rows : Int)

/-- Invariant of `organize`'s working state: every placed item is in
bounds, the placed items are pairwise disjoint, and the working grid is
`true` on every cell occupied by a placed item. -/
def OrganizeInv (rows cols : Nat) (defs : Catalog)
    (acc : List PlacedItem × TempGrid) : Prop :=
  (∀ it ∈ acc.1, inBoundsItem rows cols defs it) ∧
  acc.1.Pairwise (disjointItems defs) ∧
  (∀ it ∈ acc.1, ∀ gx gy : Int, occupiesCell defs it gx gy → acc.2 gx gy = true)

/-- Step equation: a missing catalog entry leaves the state unchanged. -/
theorem organizeStep_none (rows cols : Nat) (defs : Catalog)
    (acc : List PlacedItem × TempGrid) (it : PlacedItem)
    (h : defs it.defId = none) : organizeStep rows cols defs acc it = acc := by
  unfold organizeStep
  rw [h]

/-- Step equation: no fitting position leaves the state unchanged. -/
theorem organizeStep_nofit (rows cols : Nat) (defs : Catalog)
    (acc : List PlacedItem × TempGrid) (it : PlacedItem) (d : ItemDefinition)
    (hd : defs it.defId = some d) (hf : findFirstFit rows cols d acc.2 = none) :
    organizeStep rows cols defs acc it = acc := by
  unfold organizeStep
  rw [hd]
  simp only [hf]

/-- Step equation: a successful scan appends the repositioned copy and
marks its cells. -/
theorem organizeStep_fit (rows cols : Nat) (defs : Catalog)
    (acc : List PlacedItem × TempGrid) (it : PlacedItem) (d : ItemDefinition)
    (x y : Nat) (hd : defs it.defId = some d)
    (hf : findFirstFit rows cols d acc.2 = some (x, y)) :
    organizeStep rows cols defs acc it =
      (acc.1 ++ [{ it with x := (x : Int), y := (y : Int) }],
        markTemp d (x : Int) (y : Int) acc.2) := by
  unfold organizeStep
  rw [hd]
  simp only [hf]

/-- One `organize` iteration preserves the invariant, grows the output by
at most one item, and any new output item is the repositioned copy of the
processed item. -/
theorem organizeStep_inv (rows cols : Nat) (defs : Catalog)
    (acc : List PlacedItem × TempGrid) (it : PlacedItem)
    (h : OrganizeInv rows cols defs acc) :
    OrganizeInv rows cols defs (organizeStep rows cols defs acc it) ∧
    (organizeStep rows cols defs acc it).1.length ≤ acc.1.length + 1 ∧
    (∀ o ∈ (organizeStep rows cols defs acc it).1,
      o ∈ acc.1 ∨ o = { it with x := o.x, y := o.y }) := by
  rcases hdef : defs it.defId with _ | d
  · rw [organizeStep_none rows cols defs acc it hdef]
    exact ⟨h, Nat.le_succ _, fun o ho => Or.inl ho⟩
  · rcases hfind : findFirstFit rows cols d acc.2 with _ | ⟨x, y⟩
    · rw [organizeStep_nofit rows cols defs acc it d hdef hfind]
      exact ⟨h, Nat.le_succ _, fun o ho => Or.inl ho⟩
    · rw [organizeStep_fit rows cols defs acc it d x y hdef hfind]
      obtain ⟨hfit, hxb, hyb, _⟩ := findFirstFit_spec rows cols d acc.2 x y hfind
      obtain ⟨hbounds, hpair, hgrid⟩ := h
      have hfit2 : ∀ r < d.height, ∀ c < d.width,
          shapeAt d r c = 1 → acc.2 ((x : Int) + c) ((y : Int) + r) = false :=
        of_decide_eq_true hfit
      have hNdef : defs ({ it with x := (x : Int), y := (y : Int) } : PlacedItem).defId
          = some d := hdef
      have hNfree : ∀ gx gy : Int,
          occupiesCell defs { it with x := (x : Int), y := (y : Int) } gx gy →
          acc.2 gx gy = false := by
        rintro gx gy ⟨d2, hd2, r, hr, c, hc, hs, hgx, hgy⟩
        have hd2d : d2 = d := Option.some.inj (hd2.symm.trans hNdef)
        subst hd2d
        rw [hgx, hgy]
        exact hfit2 r hr c hc hs
      refine ⟨⟨?_, ?_, ?_⟩, by simp, ?_⟩
      · intro o ho
        rcases List.mem_append.mp ho with hin | hin
        · exact hbounds o hin
        · rcases List.mem_singleton.mp hin with rfl
          refine ⟨d, hNdef, ?_, ?_, ?_, ?_⟩
          · show (0 : Int) ≤ ((x : Nat) : Int)
            omega
          · show (0 : Int) ≤ ((y : Nat) : Int)
            omega
          · show ((x : Nat) : Int) + (d.width : Int) ≤ ((cols : Nat) : Int)
            omega
          · show ((y : Nat) : Int) + (d.height : Int) ≤ ((rows : Nat) : Int)
            omega
      · rw [List.pairwise_append]
        refine ⟨hpair, List.pairwise_singleton _ _, ?_⟩
        intro a ha b hb
        rcases List.mem_singleton.mp hb with rfl
        intro gx gy hca hcb
        have h1 := hgrid a ha gx gy hca
        have h2 := hNfree gx gy hcb
        exact Bool.noConfusion (h1.symm.trans h2)
      · intro o ho gx gy hocc
        show markTemp d (x : Int) (y : Int) acc.2 gx gy = true
        rw [markTemp_read]
        split_ifs with hcov
        · rfl
        · rcases List.mem_append.mp ho with hin | hin
          · exact hgrid o hin gx gy hocc
          · rcases List.mem_singleton.mp hin with rfl
            obtain ⟨d2, hd2, r, hr, c, hc, hs, hgx, hgy⟩ := hocc
            have hd2d : d2 = d := Option.some.inj (hd2.symm.trans hNdef)
            subst hd2d
            exact absurd ⟨r, hr, c, hc, hs, hgx, hgy⟩ hcov
      · intro o ho
        rcases List.mem_append.mp ho with hin | hin
        · exact Or.inl hin
        · rcases List.mem_singleton.mp hin with rfl
          exact Or.inr rfl

/-- Folding `organize`'s loop preserves the invariant, bounds the output
length by the input length, and every output item not already present is
the repositioned copy of some processed item. -/
theorem organizeFold_inv (rows cols : Nat) (defs : Catalog) :
    ∀ (l : List PlacedItem) (acc : List PlacedItem × TempGrid),
      OrganizeInv rows cols defs acc →
      OrganizeInv rows cols defs (l.foldl (organizeStep rows cols defs) acc) ∧
      (l.foldl (organizeStep rows cols defs) acc).1.length ≤ acc.1.length + l.length ∧
      (∀ o ∈ (l.foldl (organizeStep rows cols defs) acc).1,
        o ∈ acc.1 ∨ ∃ src ∈ l, o = { src with x := o.x, y := o.y }) := by
  intro l
  induction l with
  | nil => intro acc h; exact ⟨h, by simp, fun o ho => Or.inl ho⟩
  | cons it rest ih =>
    intro acc h
    rw [List.foldl_cons]
    obtain ⟨h1, h2, h3⟩ := organizeStep_inv rows cols defs acc it h
    obtain ⟨g1, g2, g3⟩ := ih _ h1
    refine ⟨g1, ?_, ?_⟩
    · simp only [List.length_cons]
      omega
    · intro o ho
      rcases g3 o ho with hin | ⟨src, hsrc, heq⟩
      · rcases h3 o hin with hin2 | heq2
        · exact Or.inl hin2
        · exact Or.inr ⟨it, List.mem_cons_self _ _, heq2⟩
      · exact Or.inr ⟨src, List.mem_cons_of_mem it hsrc, heq⟩

/-- The all-free initial working state satisfies the invariant. -/
theorem organizeInv_init (rows cols : Nat) (defs : Catalog) :
    OrganizeInv rows cols defs ([], fun _ _ => false) :=
  ⟨fun _ h => absurd h (List.not_mem_nil _), List.Pairwise.nil,
   fun _ h => absurd h (List.not_mem_nil _)⟩

/-- A placed item whose type identifier is in no catalog entry. -/
def unknownU1 : PlacedItem :=
  { instanceId := "U1", defId := "mystery", x := 0, y := 0, rotation := 0 }

/-- C4 counterexample: `organize` over a list containing an item whose
type identifier is missing from the catalog does NOT complete — the
source dereferences `defs[item.defId]` unguarded and throws a
`TypeError`, modelled as a `none` result. -/
theorem claim_C4_counterexample :
    organize 8 8 ITEM_DEFINITIONS [unknownU1] = none := by decide

/-- C4 (amended): occupancy building silently skips any item whose type
identifier is missing from the catalog, contributing no occupancy and
raising no error, and `canPlaceItem` tolerates such items trivially; but
`organize` fails (throws) whenever any input item's type identifier is
missing from the catalog, instead of completing. -/
theorem claim_C4_unknown_type_handling (rows cols : Nat) (defs : Catalog)
    (pre post : List PlacedItem) (ign : Option String) (it : PlacedItem)
    (hmiss : defs it.defId = none) :
    (getOccupancyGridWithDefs rows cols (pre ++ it :: post) defs ign =
      getOccupancyGridWithDefs rows cols (pre ++ post) defs ign) ∧
    (∀ items : List PlacedItem, it ∈ items →
      organize rows cols defs items = none) := by
  constructor
  · unfold getOccupancyGridWithDefs
    rw [List.foldl_append, List.foldl_cons, List.foldl_append]
    congr 1
    simp [hmiss]
  · intro items hmem
    unfold organize
    rw [if_neg]
    intro hall
    have hsome := List.all_eq_true.mp hall it hmem
    rw [hmiss] at hsome
    simp at hsome

/-- C4 witness: the amended statement at the unknown item, alone on the
grid. -/
theorem claim_C4_unknown_type_handling_witness :
    (getOccupancyGridWithDefs 8 8 ([] ++ unknownU1 :: []) ITEM_DEFINITIONS none =
      getOccupancyGridWithDefs 8 8 ([] ++ []) ITEM_DEFINITIONS none) ∧
    organize 8 8 ITEM_DEFINITIONS [unknownU1] = none := by
  have h := claim_C4_unknown_type_handling 8 8 ITEM_DEFINITIONS [] [] none unknownU1
    (by decide)
  exact ⟨h.1, h.2 [unknownU1] (List.mem_singleton.mpr rfl)⟩

/-- Four 1×1 gems queued for the 2×2 concrete organize scenario. -/
def gemItemA : PlacedItem :=
  { instanceId := "A", defId := "gem", x := 1, y := 1, rotation := 0 }

/-- Second gem of the scenario. -/
def gemItemB : PlacedItem :=
  { instanceId := "B", defId := "gem", x := 1, y := 0, rotation := 0 }

/-- Third gem of the scenario. -/
def gemItemC : PlacedItem :=
  { instanceId := "C", defId := "gem", x := 0, y := 1, rotation := 0 }

/-- Fourth gem of the scenario. -/
def gemItemD : PlacedItem :=
  { instanceId := "D", defId := "gem", x := 0, y := 0, rotation := 0 }

/-- C6: the sort of `organize` is a stable descending sort on bounding-box
area (a permutation, sorted by `areaD`, preserving each equal-area fiber's
input order), the per-item scan returns the row-major-first feasible
position (soundness plus minimality over earlier in-bounds positions),
and on the 2×2 grid four equal-area 1×1 gems [A, B, C, D] come out at
(0,0), (1,0), (0,1), (1,1) in input order. -/
theorem claim_C6_sort_and_first_fit :
    (∀ (defs : Catalog) (items : List PlacedItem),
      (sortByAreaDesc defs items).Perm items ∧
      (sortByAreaDesc defs items).Pairwise (fun a b => areaD defs b ≤ areaD defs a)) ∧
    (∀ (defs : Catalog) (items : List PlacedItem) (A : Nat),
      (sortByAreaDesc defs items).filter (fun u => decide (areaD defs u = A)) =
        items.filter (fun u => decide (areaD defs u = A))) ∧
    (∀ (rows cols : Nat) (d : ItemDefinition) (tg : TempGrid) (x y : Nat),
      findFirstFit rows cols d tg = some (x, y) →
      fitsAt tg d x y = true ∧ x + d.width ≤ cols ∧ y + d.height ≤ rows ∧
      ∀ x2 y2 : Nat, x2 + d.width ≤ cols → y2 + d.height ≤ rows →
        (y2 < y ∨ (y2 = y ∧ x2 < x)) → fitsAt tg d x2 y2 = false) ∧
    organize 2 2 ITEM_DEFINITIONS [gemItemA, gemItemB, gemItemC, gemItemD] =
      some [{ gemItemA with x := 0, y := 0 }, { gemItemB with x := 1, y := 0 },
            { gemItemC with x := 0, y := 1 }, { gemItemD with x := 1, y := 1 }] :=
  ⟨fun defs items => ⟨perm_sortByAreaDesc defs items, pairwise_sortByAreaDesc defs items⟩,
   fun defs items A => filter_sortByAreaDesc defs A items,
   fun rows cols d tg x y h => findFirstFit_spec rows cols d tg x y h,
   by decide⟩

/-- C6 witness: with cell (0, 0) occupied on the 2×2 grid, the gem scan
returns (1, 0), and minimality rules out the earlier position (0, 0). -/
theorem claim_C6_sort_and_first_fit_witness :
    fitsAt (fun a b => decide (a = 0 ∧ b = 0)) gemDef 0 0 = false := by
  have h := claim_C6_sort_and_first_fit.2.2.1 2 2 gemDef
    (fun a b => decide (a = 0 ∧ b = 0)) 1 0 (by decide)
  exact h.2.2.2 0 0 (by decide) (by decide) (Or.inr ⟨rfl, by decide⟩)

/-- C7: a successful `organize` returns at most as many items as it
received, every returned item's full footprint lies within the grid, and
the returned items are pairwise disjoint on occupied cells. -/
theorem claim_C7_organize_invariants (rows cols : Nat) (defs : Catalog)
    (items out : List PlacedItem) (h : organize rows cols defs items = some out) :
    out.length ≤ items.length ∧
    (∀ o ∈ out, inBoundsItem rows cols defs o) ∧
    out.Pairwise (disjointItems defs) := by
  unfold organize at h
  split_ifs at h with hall
  · have hout : out = organizeCore rows cols defs items := (Option.some.inj h).symm
    subst hout
    unfold organizeCore
    obtain ⟨⟨hb, hp, _⟩, hlen, _⟩ :=
      organizeFold_inv rows cols defs (sortByAreaDesc defs items) _
        (organizeInv_init rows cols defs)
    refine ⟨?_, hb, hp⟩
    have hplen : (sortByAreaDesc defs items).length = items.length :=
      (perm_sortByAreaDesc defs items).length_eq
    simpa [hplen] using hlen

/-- C7 witness: a single gem reorganized on the 8×8 grid. -/
theorem claim_C7_organize_invariants_witness :
    ([gemA] : List PlacedItem).length ≤ ([gemA] : List PlacedItem).length ∧
    (∀ o ∈ ([gemA] : List PlacedItem), inBoundsItem 8 8 ITEM_DEFINITIONS o) ∧
    ([gemA] : List PlacedItem).Pairwise (disjointItems ITEM_DEFINITIONS) :=
  claim_C7_organize_invariants 8 8 ITEM_DEFINITIONS [gemA] [gemA] (by decide)

/-- C10: every item a successful `organize` returns is a copy of some
input item sharing its instance id, type id and rotation, with only the
coordinates replaced (`{ ...item, x, y }` in the source); the input list
itself is read through a spread copy and never written. -/
theorem claim_C10_organize_fresh_records (rows cols : Nat) (defs : Catalog)
    (items out : List PlacedItem) (h : organize rows cols defs items = some out) :
    ∀ o ∈ out, ∃ src ∈ items,
      o.instanceId = src.instanceId ∧ o.defId = src.defId ∧
      o.rotation = src.rotation ∧ o = { src with x := o.x, y := o.y } := by
  unfold organize at h
  split_ifs at h with hall
  · have hout : out = organizeCore rows cols defs items := (Option.some.inj h).symm
    subst hout
    unfold organizeCore
    obtain ⟨_, _, hprov⟩ :=
      organizeFold_inv rows cols defs (sortByAreaDesc defs items) _
        (organizeInv_init rows cols defs)
    intro o ho
    rcases hprov o ho with hin | ⟨src, hsrc, heq⟩
    · exact absurd hin (List.not_mem_nil o)
    · refine ⟨src, (perm_sortByAreaDesc defs items).mem_iff.mp hsrc, ?_, ?_, ?_, heq⟩
      · show o.instanceId = src.instanceId
        rw [heq]
      · show o.defId = src.defId
        rw [heq]
      · show o.rotation = src.rotation
        rw [heq]

/-- The potion instance as repositioned by `organize`. -/
def potionP1moved : PlacedItem :=
  { instanceId := "P1", defId := "potion", x := 0, y := 0, rotation := 0 }

/-- C10 witness: the potion at (2, 3) is returned repositioned to (0, 0)
with all other fields intact. -/
theorem claim_C10_organize_fresh_records_witness :
    ∃ src ∈ ([potionP1] : List PlacedItem),
      potionP1moved.instanceId = src.instanceId ∧
      potionP1moved.defId = src.defId ∧
      potionP1moved.rotation = src.rotation ∧
      potionP1moved = { src with x := potionP1moved.x, y := potionP1moved.y } :=
  claim_C10_organize_fresh_records 8 8 ITEM_DEFINITIONS [potionP1] [potionP1moved]
    (by decide) potionP1moved (List.mem_singleton.mpr rfl)

end Backpack
